import Mathlib

/-!
Shallow embedding of the core game logic of a Wordle clone
(`script.js` and `words.js`): the guess evaluator `evaluateGuess`,
the keyboard status aggregation `updateKeyStatus`, and the game
state machine (`addLetter`, `deleteLetter`, `submitGuess`,
`handleKey`, `handleHint`, `endGame`, `initGame`).

Words are modelled as `List Char`.  By the time characters reach the
core functions they are uppercase A–Z (the key handler only forwards
keys matching `[A-Z]` after upcasing, and the secret is upcased when
chosen), so the source's defensive `toUpperCase` calls are the
identity and are not repeated in the embedding.  The JavaScript
letter-count object (missing key = `undefined`, treated as 0 by
`(x || 0)` and falsy in `> 0` comparisons) is modelled as a total
function `Char → Int` defaulting to 0.
-/

namespace Wordle

/-- The board dimensions from the source: `NUM_ROWS = 6`. -/
def NUM_ROWS : Nat := 6

/-- The word length from the source: `NUM_COLS = 5`. -/
def NUM_COLS : Nat := 5

/-- Per-letter feedback status; the source uses the strings
`"correct"`, `"present"`, `"absent"`. -/
inductive LetterStatus where
  | correct
  | present
  | absent
deriving DecidableEq, Repr

/-- Point update of a letter-count table, used for the
`letterCounts[ch] += 1` / `letterCounts[g] -= 1` statements. -/
def bump (cnt : Char → Int) (c : Char) (d : Int) : Char → Int :=
  fun x => if x = c then cnt x + d else cnt x

/-- The occurrence-count table built from the secret:
`letterCounts[upper] = (letterCounts[upper] || 0) + 1` over the
secret's characters. -/
def letterCounts (secret : List Char) : Char → Int :=
  secret.foldl (fun cnt ch => bump cnt ch 1) (fun _ => 0)

/-- First pass of `evaluateGuess`: walk the guess and the secret in
parallel; positions where they agree are marked `correct` and the
letter's remaining count is decremented, other positions keep the
initial `"absent"` fill.  Returns the statuses and the remaining
counts. -/
def firstPass : List Char → List Char → (Char → Int) →
    List LetterStatus × (Char → Int)
  | g :: gs, s :: ss, cnt =>
    if g = s then
      let r := firstPass gs ss (bump cnt g (-1))
      (LetterStatus.correct :: r.1, r.2)
    else
      let r := firstPass gs ss cnt
      (LetterStatus.absent :: r.1, r.2)
  | _, _, cnt => ([], cnt)

/-- Second pass of `evaluateGuess`: positions already `correct` are
skipped; otherwise the position is `present` if the guessed letter
still has remaining count `> 0` (decrementing it), else `absent`. -/
def secondPass : List Char → List LetterStatus → (Char → Int) →
    List LetterStatus
  | g :: gs, st :: sts, cnt =>
    if st = LetterStatus.correct then
      LetterStatus.correct :: secondPass gs sts cnt
    else if cnt g > 0 then
      LetterStatus.present :: secondPass gs sts (bump cnt g (-1))
    else
      LetterStatus.absent :: secondPass gs sts cnt
  | _, _, _ => []

/-- `evaluateGuess(guess, secret)` from the source: build the secret's
letter counts, mark correct positions, then mark present letters. -/
def evaluateGuess (guess secret : List Char) : List LetterStatus :=
  let p := firstPass guess secret (letterCounts secret)
  secondPass guess p.1 p.2

/-- The uppercase-letter test used by the key handler's `[A-Z]` regex
match. -/
def isUppercaseLetter (c : Char) : Bool :=
  'A' ≤ c && c ≤ 'Z'

/-- Number of positions where the guess carries the letter `L` and the
evaluation marks it correct or present (anything but absent). -/
def markedCount : List Char → List LetterStatus → Char → Nat
  | g :: gs, st :: sts, L =>
    (if g = L ∧ st ≠ LetterStatus.absent then 1 else 0) + markedCount gs sts L
  | _, _, _ => 0

/-- Number of positions where the guess carries `L` and the status is
correct. -/
def corrCount : List Char → List LetterStatus → Char → Nat
  | g :: gs, st :: sts, L =>
    (if g = L ∧ st = LetterStatus.correct then 1 else 0) + corrCount gs sts L
  | _, _, _ => 0

/-- Number of positions where the guess carries `L` and the status is
present. -/
def presCount : List Char → List LetterStatus → Char → Nat
  | g :: gs, st :: sts, L =>
    (if g = L ∧ st = LetterStatus.present then 1 else 0) + presCount gs sts L
  | _, _, _ => 0

/-- Number of positions where guess and secret both carry `L` (the
positions the first pass marks correct for `L`). -/
def matchCount : List Char → List Char → Char → Nat
  | g :: gs, s :: ss, L =>
    (if g = L ∧ s = L then 1 else 0) + matchCount gs ss L
  | _, _, _ => 0

/-- Priority table from `updateKeyStatus`:
`{ correct: 3, present: 2, absent: 1 }`. -/
def priority : LetterStatus → Nat
  | LetterStatus.correct => 3
  | LetterStatus.present => 2
  | LetterStatus.absent => 1

/-- Priority of an optional stored status: a missing entry (JS
`undefined`, falsy in `!current`) loses to every status. -/
def priorityOpt : Option LetterStatus → Nat
  | none => 0
  | some st => priority st

/-- `updateKeyStatus(letter, newStatus)`: store `newStatus` when there
is no entry yet (`!current`) or its priority strictly exceeds the
stored one (`priority[newStatus] > priority[current]`); otherwise the
map is unchanged. -/
def updateKeyStatus (m : Char → Option LetterStatus) (letter : Char)
    (newStatus : LetterStatus) : Char → Option LetterStatus :=
  match m letter with
  | none => fun c => if c = letter then some newStatus else m c
  | some current =>
    if priority newStatus > priority current then
      fun c => if c = letter then some newStatus else m c
    else m

/-- A sequence of `updateKeyStatus` calls, as performed by repeated
`revealEvaluation` rounds within a game. -/
def applyKeyUpdates (m : Char → Option LetterStatus)
    (updates : List (Char × LetterStatus)) : Char → Option LetterStatus :=
  updates.foldl (fun m p => updateKeyStatus m p.1 p.2) m

/-- The module-level mutable state of the game script: the secret, the
cursor (`currentRow`, `currentCol`), the game-over and hint flags, the
cumulative counters and the per-letter keyboard status map.
`currentLetters` holds the letters typed into the current row's tiles,
in order; it models the tile text that `getCurrentGuess` reads back. -/
structure GameState where
  secretWord : List Char
  currentRow : Nat
  currentCol : Nat
  currentLetters : List Char
  isGameOver : Bool
  hasUsedHint : Bool
  gamesPlayed : Nat
  gamesWon : Nat
  currentStreak : Nat
  keyStatuses : Char → Option LetterStatus

/-- `addLetter(letter)`: no-op when the row is full or past the last
row; otherwise writes the letter at the cursor and advances the
column. -/
def addLetter (letter : Char) (s : GameState) : GameState :=
  if s.currentCol ≥ NUM_COLS ∨ s.currentRow ≥ NUM_ROWS then s
  else
    { s with
      currentLetters := s.currentLetters ++ [letter]
      currentCol := s.currentCol + 1 }

/-- `deleteLetter()`: no-op when the column is 0 or past the last row;
otherwise retracts the column and clears that tile. -/
def deleteLetter (s : GameState) : GameState :=
  if s.currentCol = 0 ∨ s.currentRow ≥ NUM_ROWS then s
  else
    { s with
      currentCol := s.currentCol - 1
      currentLetters := s.currentLetters.dropLast }

/-- `getCurrentGuess()`: read the letters of the current row back from
the tiles. -/
def getCurrentGuess (s : GameState) : List Char :=
  s.currentLetters

/-- `isValidGuess(guess)`: any 5-letter guess is accepted (the
dictionary check is a stub). -/
def isValidGuess (guess : List Char) : Bool :=
  guess.length == NUM_COLS

/-- `revealEvaluation(row, guess, evaluation)`: its only effect on core
state is the per-column `updateKeyStatus` call for each guess letter
(tile coloring is presentation). -/
def revealEvaluation (s : GameState) (guess : List Char)
    (evaluation : List LetterStatus) : GameState :=
  { s with
    keyStatuses :=
      (guess.zip evaluation).foldl (fun m p => updateKeyStatus m p.1 p.2)
        s.keyStatuses }

/-- `endGame(didWin)`: set the game-over flag and update the cumulative
counters (wins bump `gamesWon` and the streak, losses reset the
streak). -/
def endGame (didWin : Bool) (s : GameState) : GameState :=
  { s with
    isGameOver := true
    gamesPlayed := s.gamesPlayed + 1
    gamesWon := if didWin then s.gamesWon + 1 else s.gamesWon
    currentStreak := if didWin then s.currentStreak + 1 else 0 }

/-- What `submitGuess` signals to the player: the two transient error
messages ("Not enough letters", "Not in word list") or a completed
submission. -/
inductive SubmitSignal where
  | incompleteGuess
  | invalidWord
  | submitted
deriving DecidableEq, Repr

/-- `submitGuess()` with its player-visible signal: reject an
incomplete row, reject an invalid word, otherwise evaluate, reveal,
and either end with a win (row and column untouched), or advance to
the next row and end with a loss when the row limit is reached. -/
def submitGuessResult (s : GameState) : GameState × SubmitSignal :=
  if s.currentCol < NUM_COLS then (s, SubmitSignal.incompleteGuess)
  else
    let guess := getCurrentGuess s
    if !isValidGuess guess then (s, SubmitSignal.invalidWord)
    else
      let evaluation := evaluateGuess guess s.secretWord
      let s1 := revealEvaluation s guess evaluation
      if guess = s1.secretWord then (endGame true s1, SubmitSignal.submitted)
      else
        let s2 :=
          { s1 with
            currentRow := s1.currentRow + 1
            currentCol := 0
            currentLetters := [] }
        if s2.currentRow = NUM_ROWS then
          (endGame false s2, SubmitSignal.submitted)
        else (s2, SubmitSignal.submitted)

/-- `submitGuess()` as a state transition. -/
def submitGuess (s : GameState) : GameState :=
  (submitGuessResult s).1

/-- The logical keys `handleKey` dispatches on. -/
inductive Key where
  | enter
  | backspace
  | letter (c : Char)

/-- `handleKey(key)`: drop everything once the game is over, otherwise
dispatch Enter to submit, Backspace to delete, and letters matching
`[A-Z]` to `addLetter`. -/
def handleKey (key : Key) (s : GameState) : GameState :=
  if s.isGameOver then s
  else
    match key with
    | Key.enter => submitGuess s
    | Key.backspace => deleteLetter s
    | Key.letter c => if isUppercaseLetter c then addLetter c s else s

/-- `handleHint()` with the hint it displays: no-op (and no message)
when the game is over, the hint was already used, or no secret is set;
otherwise mark the hint used and show the secret's first letter. -/
def handleHint (s : GameState) : GameState × Option Char :=
  if s.isGameOver ∨ s.hasUsedHint ∨ s.secretWord = [] then (s, none)
  else ({ s with hasUsedHint := true }, s.secretWord.head?)

/-- The state reset performed by `initGame()` once a secret has been
chosen: cursor to (0,0), flags cleared, key statuses cleared; the
cumulative counters persist across games. -/
def initGame (secret : List Char) (s : GameState) : GameState :=
  { s with
    secretWord := secret
    currentRow := 0
    currentCol := 0
    currentLetters := []
    isGameOver := false
    hasUsedHint := false
    keyStatuses := fun _ => none }

/-- A run of the game: fold `handleKey` over a list of input keys. -/
def applyKeys (s : GameState) (keys : List Key) : GameState :=
  keys.foldl (fun s k => handleKey k s) s

/-- A completely blank session, for building concrete states. -/
def blankSession : GameState :=
  { secretWord := []
    currentRow := 0
    currentCol := 0
    currentLetters := []
    isGameOver := false
    hasUsedHint := false
    gamesPlayed := 0
    gamesWon := 0
    currentStreak := 0
    keyStatuses := fun _ => none }

/-- Type the letters of a word into the current row and press Enter:
one full guess submission. -/
def playGuess (s : GameState) (w : List Char) : GameState :=
  submitGuess (w.foldl (fun s c => addLetter c s) s)

/-- Submit a sequence of full guesses. -/
def playGuesses (s : GameState) (ws : List (List Char)) : GameState :=
  ws.foldl playGuess s

/-- A fresh game with secret "CRANE" whose current row has been filled
with the letters C, R, A, N, E. -/
def filledRow : GameState :=
  addLetter 'E' (addLetter 'N' (addLetter 'A' (addLetter 'R' (addLetter 'C'
    (initGame ['C', 'R', 'A', 'N', 'E'] blankSession)))))

/-- The cursor invariant of the data model: the column never exceeds
the word length, the row never exceeds the row count, and a cursor
past the last row can only sit at column 0. -/
def RowColInv (s : GameState) : Prop :=
  s.currentCol ≤ NUM_COLS ∧ s.currentRow ≤ NUM_ROWS ∧
    (s.currentRow = NUM_ROWS → s.currentCol = 0)

theorem firstPass_fst (gs ss : List Char) (cnt : Char → Int) :
    (firstPass gs ss cnt).1 =
      List.zipWith
        (fun g s => if g = s then LetterStatus.correct else LetterStatus.absent)
        gs ss := by
  induction gs generalizing ss cnt with
  | nil => cases ss <;> simp [firstPass]
  | cons g gs ih =>
    cases ss with
    | nil => simp [firstPass]
    | cons s ss =>
      by_cases h : g = s <;> simp [firstPass, h, ih]

theorem secondPass_correct_iff (gs : List Char) (sts : List LetterStatus)
    (cnt : Char → Int) (i : Nat) :
    (secondPass gs sts cnt)[i]? = some LetterStatus.correct ↔
      sts[i]? = some LetterStatus.correct ∧ i < gs.length := by
  induction gs generalizing sts cnt i with
  | nil => simp [secondPass]
  | cons g gs ih =>
    cases sts with
    | nil => simp [secondPass]
    | cons st sts =>
      by_cases hst : st = LetterStatus.correct
      · cases i with
        | zero => simp [secondPass, hst]
        | succ i => simp [secondPass, hst, ih, Nat.succ_lt_succ_iff]
      · by_cases hc : cnt g > 0
        · cases i with
          | zero => simp [secondPass, hst, hc]
          | succ i => simp [secondPass, hst, hc, ih, Nat.succ_lt_succ_iff]
        · cases i with
          | zero => simp [secondPass, hst, hc]
          | succ i => simp [secondPass, hst, hc, ih, Nat.succ_lt_succ_iff]

theorem zipWith_mark_correct_iff (gs ss : List Char) (i : Nat)
    (hg : i < gs.length) (hs : i < ss.length) :
    (List.zipWith
        (fun g s => if g = s then LetterStatus.correct else LetterStatus.absent)
        gs ss)[i]? = some LetterStatus.correct ↔ gs[i]? = ss[i]? := by
  induction gs generalizing ss i with
  | nil => simp at hg
  | cons g gs ih =>
    cases ss with
    | nil => simp at hs
    | cons s ss =>
      cases i with
      | zero => by_cases h : g = s <;> simp [h]
      | succ i =>
        simp only [List.zipWith_cons_cons, List.getElem?_cons_succ]
        exact ih ss i (Nat.lt_of_succ_lt_succ hg) (Nat.lt_of_succ_lt_succ hs)

theorem firstPass_self (ss : List Char) (cnt : Char → Int) :
    (firstPass ss ss cnt).1 = List.replicate ss.length LetterStatus.correct := by
  induction ss generalizing cnt with
  | nil => simp [firstPass]
  | cons s ss ih => simp [firstPass, List.replicate_succ, ih]

theorem secondPass_replicate (gs : List Char) (cnt : Char → Int) :
    secondPass gs (List.replicate gs.length LetterStatus.correct) cnt =
      List.replicate gs.length LetterStatus.correct := by
  induction gs generalizing cnt with
  | nil => simp [secondPass]
  | cons g gs ih => simp [secondPass, List.replicate_succ, ih]

theorem markedCount_eq (gs : List Char) (sts : List LetterStatus) (L : Char) :
    markedCount gs sts L = corrCount gs sts L + presCount gs sts L := by
  induction gs generalizing sts with
  | nil => simp [markedCount, corrCount, presCount]
  | cons g gs ih =>
    cases sts with
    | nil => simp [markedCount, corrCount, presCount]
    | cons st sts =>
      cases st <;> by_cases hgL : g = L <;>
        simp [markedCount, corrCount, presCount, hgL, ih] <;> omega

theorem letterCounts_aux (ss : List Char) (cnt : Char → Int) (L : Char) :
    ss.foldl (fun cnt ch => bump cnt ch 1) cnt L = cnt L + ss.count L := by
  induction ss generalizing cnt with
  | nil => simp
  | cons s ss ih =>
    simp only [List.foldl_cons]
    rw [ih]
    by_cases h : L = s <;> simp [bump, h, List.count_cons] <;> omega

theorem letterCounts_eq_count (ss : List Char) (L : Char) :
    letterCounts ss L = (ss.count L : Int) := by
  simpa using letterCounts_aux ss (fun _ => 0) L

theorem firstPass_snd (gs ss : List Char) (cnt : Char → Int) (L : Char) :
    (firstPass gs ss cnt).2 L = cnt L - matchCount gs ss L := by
  induction gs generalizing ss cnt with
  | nil => cases ss <;> simp [firstPass, matchCount]
  | cons g gs ih =>
    cases ss with
    | nil => simp [firstPass, matchCount]
    | cons s ss =>
      by_cases h : g = s
      · subst h
        by_cases hL : g = L
        · subst hL
          simp [firstPass, matchCount, ih, bump]
          omega
        · simp [firstPass, matchCount, ih, bump, hL, Ne.symm hL]
      · have hnot : ¬(g = L ∧ s = L) := by
          rintro ⟨rfl, rfl⟩; exact h rfl
        simp [firstPass, matchCount, ih, h, hnot]

theorem corrCount_firstPass (gs ss : List Char) (cnt : Char → Int) (L : Char) :
    corrCount gs (firstPass gs ss cnt).1 L = matchCount gs ss L := by
  induction gs generalizing ss cnt with
  | nil => cases ss <;> simp [firstPass, corrCount, matchCount]
  | cons g gs ih =>
    cases ss with
    | nil => simp [firstPass, corrCount, matchCount]
    | cons s ss =>
      by_cases h : g = s
      · subst h
        by_cases hL : g = L <;> simp [firstPass, corrCount, matchCount, ih, hL]
      · have hnot : ¬(g = L ∧ s = L) := by
          rintro ⟨rfl, rfl⟩; exact h rfl
        simp [firstPass, corrCount, matchCount, ih, h, hnot]

theorem corrCount_secondPass (gs : List Char) (sts : List LetterStatus)
    (cnt : Char → Int) (L : Char) :
    corrCount gs (secondPass gs sts cnt) L = corrCount gs sts L := by
  induction gs generalizing sts cnt with
  | nil => simp [secondPass, corrCount]
  | cons g gs ih =>
    cases sts with
    | nil => simp [secondPass, corrCount]
    | cons st sts =>
      by_cases hst : st = LetterStatus.correct
      · simp [secondPass, corrCount, hst, ih]
      · by_cases hc : cnt g > 0 <;>
          simp [secondPass, corrCount, hst, hc, ih]

theorem presCount_secondPass (gs : List Char) (sts : List LetterStatus)
    (cnt : Char → Int) (L : Char) (h0 : 0 ≤ cnt L) :
    (presCount gs (secondPass gs sts cnt) L : Int) ≤ cnt L := by
  induction gs generalizing sts cnt with
  | nil => simpa [secondPass, presCount] using h0
  | cons g gs ih =>
    cases sts with
    | nil => simpa [secondPass, presCount] using h0
    | cons st sts =>
      by_cases hst : st = LetterStatus.correct
      · have hrec := ih sts cnt h0
        simp only [secondPass, if_pos hst]
        simp [presCount]
        omega
      · by_cases hc : cnt g > 0
        · by_cases hgL : g = L
          · subst hgL
            have hb : bump cnt g (-1) g = cnt g - 1 := by
              simp [bump, sub_eq_add_neg]
            have hrec := ih sts (bump cnt g (-1)) (by rw [hb]; omega)
            rw [hb] at hrec
            simp only [secondPass, if_neg hst, if_pos hc]
            simp [presCount]
            omega
          · have hb : bump cnt g (-1) L = cnt L := by
              simp only [bump]
              rw [if_neg (fun h : L = g => hgL (Eq.symm h))]
            have hrec := ih sts (bump cnt g (-1)) (by rw [hb]; exact h0)
            rw [hb] at hrec
            simp only [secondPass, if_neg hst, if_pos hc]
            simp [presCount, hgL]
            omega
        · have hrec := ih sts cnt h0
          simp only [secondPass, if_neg hst, if_neg hc]
          simp [presCount]
          omega

theorem matchCount_le_count (gs ss : List Char) (L : Char) :
    matchCount gs ss L ≤ ss.count L := by
  induction gs generalizing ss with
  | nil => cases ss <;> simp [matchCount]
  | cons g gs ih =>
    cases ss with
    | nil => simp [matchCount]
    | cons s ss =>
      have hrec := ih ss
      by_cases h : g = L ∧ s = L
      · obtain ⟨h1, h2⟩ := h
        subst h2
        simp [matchCount, h1, List.count_cons]
        omega
      · have hle : ss.count L ≤ (s :: ss).count L := by
          simp [List.count_cons]
        simp [matchCount, h]
        omega

theorem priority_pos (st : LetterStatus) : 0 < priority st := by
  cases st <;> simp [priority]

theorem priority_le_three (st : LetterStatus) : priority st ≤ 3 := by
  cases st <;> simp [priority]

theorem updateKeyStatus_eq (m : Char → Option LetterStatus) (letter : Char)
    (st : LetterStatus) (c : Char) :
    updateKeyStatus m letter st c =
      if c = letter ∧ priorityOpt (m letter) < priority st then some st
      else m c := by
  unfold updateKeyStatus
  cases hm : m letter with
  | none =>
    by_cases hc : c = letter <;>
      simp [hc, hm, priorityOpt, priority_pos]
  | some cur =>
    by_cases hp : priority st > priority cur <;> by_cases hc : c = letter <;>
      simp [hp, hc, hm, priorityOpt]

theorem updateKeyStatus_le (m : Char → Option LetterStatus) (letter : Char)
    (st : LetterStatus) (c : Char) :
    priorityOpt (m c) ≤ priorityOpt (updateKeyStatus m letter st c) := by
  rw [updateKeyStatus_eq]
  by_cases h : c = letter ∧ priorityOpt (m letter) < priority st
  · rw [if_pos h]
    obtain ⟨hc, hp⟩ := h
    subst hc
    exact Nat.le_of_lt hp
  · rw [if_neg h]

theorem updateKeyStatus_correct_fixed (m : Char → Option LetterStatus)
    (letter : Char) (st : LetterStatus) (c : Char)
    (h : m c = some LetterStatus.correct) :
    updateKeyStatus m letter st c = some LetterStatus.correct := by
  rw [updateKeyStatus_eq]
  by_cases hcond : c = letter ∧ priorityOpt (m letter) < priority st
  · obtain ⟨hc, hp⟩ := hcond
    subst hc
    rw [h] at hp
    have hle := priority_le_three st
    have h3 : priorityOpt (some LetterStatus.correct) = 3 := rfl
    rw [h3] at hp
    omega
  · rw [if_neg hcond]
    exact h

theorem applyKeyUpdates_le (m : Char → Option LetterStatus)
    (updates : List (Char × LetterStatus)) (c : Char) :
    priorityOpt (m c) ≤ priorityOpt (applyKeyUpdates m updates c) := by
  induction updates generalizing m with
  | nil => simp [applyKeyUpdates]
  | cons u us ih =>
    have h1 := updateKeyStatus_le m u.1 u.2 c
    have h2 := ih (updateKeyStatus m u.1 u.2)
    simp only [applyKeyUpdates, List.foldl_cons] at *
    omega

theorem applyKeyUpdates_correct_fixed (m : Char → Option LetterStatus)
    (updates : List (Char × LetterStatus)) (c : Char)
    (h : m c = some LetterStatus.correct) :
    applyKeyUpdates m updates c = some LetterStatus.correct := by
  induction updates generalizing m with
  | nil => simpa [applyKeyUpdates] using h
  | cons u us ih =>
    have h1 := updateKeyStatus_correct_fixed m u.1 u.2 c h
    simp only [applyKeyUpdates, List.foldl_cons] at *
    exact ih (updateKeyStatus m u.1 u.2) h1

/-- Claim C1 (counterexample): for secret "CRANE" and guess "TRACE" the
evaluator does NOT return [absent, correct, present, present, correct]:
the letter A sits at position 2 in both words, so it is marked correct,
not merely present. -/
theorem evaluateGuess_trace_crane_ne :
    evaluateGuess ['T', 'R', 'A', 'C', 'E'] ['C', 'R', 'A', 'N', 'E'] ≠
      [LetterStatus.absent, LetterStatus.correct, LetterStatus.present,
        LetterStatus.present, LetterStatus.correct] := by
  decide

/-- Claim C1 (amended): for secret "CRANE" and guess "TRACE" the
evaluator returns [absent, correct, correct, present, correct]
(T absent, R correct at position 1, A correct at position 2,
C present, E correct at position 4). -/
theorem evaluateGuess_trace_crane :
    evaluateGuess ['T', 'R', 'A', 'C', 'E'] ['C', 'R', 'A', 'N', 'E'] =
      [LetterStatus.absent, LetterStatus.correct, LetterStatus.correct,
        LetterStatus.present, LetterStatus.correct] := by
  decide

/-- Claim C2: for every secret and guess of length 5 over uppercase
letters, `evaluateGuess` marks position i correct exactly when the
guess and the secret agree at position i; in particular evaluating the
secret against itself yields all-correct. -/
theorem evaluateGuess_correct_iff (guess secret : List Char)
    (hg : guess.length = 5) (hs : secret.length = 5)
    (hgu : ∀ c ∈ guess, isUppercaseLetter c = true)
    (hsu : ∀ c ∈ secret, isUppercaseLetter c = true) :
    (∀ i, i < 5 →
      ((evaluateGuess guess secret)[i]? = some LetterStatus.correct ↔
        guess[i]? = secret[i]?)) ∧
    evaluateGuess secret secret = List.replicate 5 LetterStatus.correct := by
  constructor
  · intro i hi
    simp only [evaluateGuess]
    rw [secondPass_correct_iff, firstPass_fst,
      zipWith_mark_correct_iff guess secret i (hg ▸ hi) (hs ▸ hi)]
    simp [hg, hi]
  · simp only [evaluateGuess]
    rw [firstPass_self, hs, ← hs, secondPass_replicate, hs]

/-- Claim C3: for every secret and guess of length 5 and every letter
L, the number of positions where the guess carries L and the
evaluation marks correct or present never exceeds the number of
occurrences of L in the secret. -/
theorem evaluateGuess_no_overcredit (guess secret : List Char) (L : Char)
    (hg : guess.length = 5) (hs : secret.length = 5) :
    markedCount guess (evaluateGuess guess secret) L ≤ secret.count L := by
  have hmatch : matchCount guess secret L ≤ secret.count L :=
    matchCount_le_count guess secret L
  have hsnd : (firstPass guess secret (letterCounts secret)).2 L =
      (secret.count L : Int) - matchCount guess secret L := by
    rw [firstPass_snd, letterCounts_eq_count]
  have h0 : (0 : Int) ≤ (firstPass guess secret (letterCounts secret)).2 L := by
    rw [hsnd]
    omega
  have hpres := presCount_secondPass guess
    (firstPass guess secret (letterCounts secret)).1
    (firstPass guess secret (letterCounts secret)).2 L h0
  rw [hsnd] at hpres
  have hcorr : corrCount guess (evaluateGuess guess secret) L =
      matchCount guess secret L := by
    simp only [evaluateGuess]
    rw [corrCount_secondPass, corrCount_firstPass]
  have hmarked := markedCount_eq guess (evaluateGuess guess secret) L
  have hpres2 : (presCount guess (evaluateGuess guess secret) L : Int) ≤
      (secret.count L : Int) - matchCount guess secret L := by
    simpa only [evaluateGuess] using hpres
  omega

/-- Witness for claim C3 at the spec's duplicate-letter example: guess
"SPEED" against secret "ERASE", letter E (two marks, two copies in the
secret). -/
theorem evaluateGuess_no_overcredit_witness :
    markedCount ['S', 'P', 'E', 'E', 'D']
        (evaluateGuess ['S', 'P', 'E', 'E', 'D'] ['E', 'R', 'A', 'S', 'E']) 'E' ≤
      (['E', 'R', 'A', 'S', 'E'] : List Char).count 'E' :=
  evaluateGuess_no_overcredit ['S', 'P', 'E', 'E', 'D'] ['E', 'R', 'A', 'S', 'E']
    'E' (by decide) (by decide)

/-- Witness for claim C2 at guess "TRACE", secret "CRANE". -/
theorem evaluateGuess_correct_iff_witness :
    (∀ i, i < 5 →
      ((evaluateGuess ['T', 'R', 'A', 'C', 'E'] ['C', 'R', 'A', 'N', 'E'])[i]? =
          some LetterStatus.correct ↔
        (['T', 'R', 'A', 'C', 'E'] : List Char)[i]? =
          (['C', 'R', 'A', 'N', 'E'] : List Char)[i]?)) ∧
    evaluateGuess ['C', 'R', 'A', 'N', 'E'] ['C', 'R', 'A', 'N', 'E'] =
      List.replicate 5 LetterStatus.correct :=
  evaluateGuess_correct_iff ['T', 'R', 'A', 'C', 'E'] ['C', 'R', 'A', 'N', 'E']
    (by decide) (by decide) (by decide) (by decide)

/-- Claim C4 (counterexample): within one game, the second call to
`handleHint` does not display the secret's first letter again: the
first call on a fresh game with secret "CRANE" shows 'C', but the
second call is a complete no-op and shows nothing. -/
theorem handleHint_second_call_silent :
    (handleHint (initGame ['C', 'R', 'A', 'N', 'E'] blankSession)).2 = some 'C' ∧
    (handleHint
        (handleHint (initGame ['C', 'R', 'A', 'N', 'E'] blankSession)).1).2 =
      none := by
  constructor <;> rfl

/-- Claim C4 (amended): within one game, the first `handleHint` call on
an active game with a hint still available and a nonempty secret shows
the secret's first letter and sets the hint-used flag, changing nothing
else; every later call in the same game is a complete no-op that shows
nothing. -/
theorem handleHint_spec (s : GameState) (h1 : s.isGameOver = false)
    (h2 : s.hasUsedHint = false) (h3 : s.secretWord ≠ []) :
    handleHint s = ({ s with hasUsedHint := true }, s.secretWord.head?) ∧
    handleHint (handleHint s).1 = ((handleHint s).1, none) := by
  have e1 : handleHint s = ({ s with hasUsedHint := true }, s.secretWord.head?) := by
    simp [handleHint, h1, h2, h3]
  refine ⟨e1, ?_⟩
  rw [e1]
  simp [handleHint]

/-- Witness for claim C4 on a fresh game with secret "CRANE". -/
theorem handleHint_spec_witness :
    handleHint (initGame ['C', 'R', 'A', 'N', 'E'] blankSession) =
      ({ initGame ['C', 'R', 'A', 'N', 'E'] blankSession with hasUsedHint := true },
        (initGame ['C', 'R', 'A', 'N', 'E'] blankSession).secretWord.head?) ∧
    handleHint (handleHint (initGame ['C', 'R', 'A', 'N', 'E'] blankSession)).1 =
      ((handleHint (initGame ['C', 'R', 'A', 'N', 'E'] blankSession)).1, none) :=
  handleHint_spec (initGame ['C', 'R', 'A', 'N', 'E'] blankSession)
    (by rfl) (by rfl) (by decide)

/-- Claim C5: in any state with the game-over flag set, every key
(letter, Backspace or Enter) is dropped by `handleKey`, leaving
`currentRow` and `currentCol` unchanged. -/
theorem handleKey_gameOver_frame (s : GameState) (k : Key)
    (h : s.isGameOver = true) :
    (handleKey k s).currentRow = s.currentRow ∧
    (handleKey k s).currentCol = s.currentCol := by
  simp [handleKey, h]

/-- Witness for claim C5: pressing Enter after a won game changes
nothing. -/
theorem handleKey_gameOver_frame_witness :
    (handleKey Key.enter
        (endGame true (initGame ['C', 'R', 'A', 'N', 'E'] blankSession))).currentRow =
      (endGame true (initGame ['C', 'R', 'A', 'N', 'E'] blankSession)).currentRow ∧
    (handleKey Key.enter
        (endGame true (initGame ['C', 'R', 'A', 'N', 'E'] blankSession))).currentCol =
      (endGame true (initGame ['C', 'R', 'A', 'N', 'E'] blankSession)).currentCol :=
  handleKey_gameOver_frame
    (endGame true (initGame ['C', 'R', 'A', 'N', 'E'] blankSession)) Key.enter
    (by rfl)

/-- Claim C6: across any sequence of key-status updates the stored
priority never decreases; once a letter's entry is correct it stays
correct; and a single update that changes an entry changes it to a
strictly higher-priority status. -/
theorem keyStatuses_monotone (m : Char → Option LetterStatus)
    (updates : List (Char × LetterStatus)) (c : Char) :
    priorityOpt (m c) ≤ priorityOpt (applyKeyUpdates m updates c) ∧
    (m c = some LetterStatus.correct →
      applyKeyUpdates m updates c = some LetterStatus.correct) ∧
    (∀ letter st, updateKeyStatus m letter st c ≠ m c →
      priorityOpt (m c) < priorityOpt (updateKeyStatus m letter st c)) := by
  refine ⟨applyKeyUpdates_le m updates c,
    fun h => applyKeyUpdates_correct_fixed m updates c h, ?_⟩
  intro letter st hne
  rw [updateKeyStatus_eq] at hne ⊢
  by_cases hcond : c = letter ∧ priorityOpt (m letter) < priority st
  · rw [if_pos hcond]
    obtain ⟨hc, hp⟩ := hcond
    subst hc
    exact hp
  · rw [if_neg hcond] at hne
    exact absurd rfl hne

/-- Witness for claim C6: an absent update cannot displace a correct
entry. -/
theorem keyStatuses_monotone_witness :
    applyKeyUpdates (updateKeyStatus (fun _ => none) 'A' LetterStatus.correct)
        [('A', LetterStatus.absent)] 'A' = some LetterStatus.correct :=
  (keyStatuses_monotone
      (updateKeyStatus (fun _ => none) 'A' LetterStatus.correct)
      [('A', LetterStatus.absent)] 'A').2.1 (by decide)

/-- Claim C8: submitting with fewer than 5 letters entered signals the
incomplete-guess error and changes no state at all. -/
theorem submitGuess_incomplete (s : GameState)
    (h : s.currentCol < NUM_COLS) :
    submitGuessResult s = (s, SubmitSignal.incompleteGuess) ∧
    submitGuess s = s := by
  constructor
  · simp [submitGuessResult, h]
  · simp [submitGuess, submitGuessResult, h]

/-- Witness for claim C8: submitting after a single letter is
rejected. -/
theorem submitGuess_incomplete_witness :
    submitGuessResult (addLetter 'A' (initGame ['C', 'R', 'A', 'N', 'E'] blankSession)) =
      (addLetter 'A' (initGame ['C', 'R', 'A', 'N', 'E'] blankSession),
        SubmitSignal.incompleteGuess) ∧
    submitGuess (addLetter 'A' (initGame ['C', 'R', 'A', 'N', 'E'] blankSession)) =
      addLetter 'A' (initGame ['C', 'R', 'A', 'N', 'E'] blankSession) :=
  submitGuess_incomplete
    (addLetter 'A' (initGame ['C', 'R', 'A', 'N', 'E'] blankSession)) (by decide)

/-- Claim C10: a complete valid submission equal to the secret ends the
game with a win and leaves the cursor where it is (row at the winning
row, column at 5); the row advance and column reset happen exactly on
the non-winning valid submissions. -/
theorem submitGuess_win_frame (s : GameState)
    (hcol : s.currentCol = NUM_COLS)
    (hlen : s.currentLetters.length = NUM_COLS) :
    (s.currentLetters = s.secretWord →
      (submitGuess s).isGameOver = true ∧
      (submitGuess s).currentRow = s.currentRow ∧
      (submitGuess s).currentCol = NUM_COLS ∧
      (submitGuess s).gamesWon = s.gamesWon + 1 ∧
      (submitGuess s).currentStreak = s.currentStreak + 1 ∧
      (submitGuess s).gamesPlayed = s.gamesPlayed + 1) ∧
    (s.currentLetters ≠ s.secretWord →
      (submitGuess s).currentRow = s.currentRow + 1 ∧
      (submitGuess s).currentCol = 0) := by
  constructor
  · intro heq
    have hlen2 : s.secretWord.length = NUM_COLS := heq ▸ hlen
    simp [submitGuess, submitGuessResult, getCurrentGuess, isValidGuess,
      revealEvaluation, endGame, hcol, hlen, hlen2, heq]
  · intro hne
    simp only [submitGuess, submitGuessResult, getCurrentGuess, isValidGuess,
      revealEvaluation, hcol, hlen]
    norm_num [NUM_COLS]
    rw [if_neg hne]
    constructor <;> split <;> rfl

theorem foldl_addLetter_eq (w : List Char) (s : GameState)
    (hcol : s.currentCol + w.length ≤ NUM_COLS)
    (hrow : s.currentRow < NUM_ROWS) :
    w.foldl (fun s c => addLetter c s) s =
      { s with
        currentLetters := s.currentLetters ++ w
        currentCol := s.currentCol + w.length } := by
  induction w generalizing s with
  | nil => simp
  | cons c w ih =>
    have hadd : addLetter c s =
        { s with
          currentLetters := s.currentLetters ++ [c]
          currentCol := s.currentCol + 1 } := by
      unfold addLetter
      rw [if_neg]
      push_neg
      refine ⟨?_, hrow⟩
      simp only [List.length_cons] at hcol
      omega
    have hc2 : ({ s with
        currentLetters := s.currentLetters ++ [c]
        currentCol := s.currentCol + 1 } : GameState).currentCol + w.length ≤
        NUM_COLS := by
      show s.currentCol + 1 + w.length ≤ NUM_COLS
      simp only [List.length_cons] at hcol
      omega
    have hr2 : ({ s with
        currentLetters := s.currentLetters ++ [c]
        currentCol := s.currentCol + 1 } : GameState).currentRow < NUM_ROWS :=
      hrow
    rw [List.foldl_cons, hadd, ih _ hc2 hr2]
    congr 1
    · show s.currentCol + 1 + w.length = s.currentCol + (c :: w).length
      simp only [List.length_cons]
      omega
    · show (s.currentLetters ++ [c]) ++ w = s.currentLetters ++ c :: w
      simp

theorem submitGuess_nonwin_fields (s : GameState)
    (hcol : s.currentCol = NUM_COLS)
    (hlen : s.currentLetters.length = NUM_COLS)
    (hne : s.currentLetters ≠ s.secretWord) :
    (submitGuess s).currentRow = s.currentRow + 1 ∧
    (submitGuess s).currentCol = 0 ∧
    (submitGuess s).currentLetters = [] ∧
    (submitGuess s).secretWord = s.secretWord ∧
    (submitGuess s).isGameOver =
      (if s.currentRow + 1 = NUM_ROWS then true else s.isGameOver) ∧
    (submitGuess s).gamesPlayed =
      (if s.currentRow + 1 = NUM_ROWS then s.gamesPlayed + 1 else s.gamesPlayed) ∧
    (submitGuess s).gamesWon = s.gamesWon ∧
    (submitGuess s).currentStreak =
      (if s.currentRow + 1 = NUM_ROWS then 0 else s.currentStreak) := by
  simp only [submitGuess, submitGuessResult, getCurrentGuess, isValidGuess, hcol]
  rw [if_neg (lt_irrefl NUM_COLS)]
  rw [if_neg (by simp [hlen])]
  rw [if_neg (by simpa [revealEvaluation] using hne)]
  split
  · rename_i h6
    have h7 : s.currentRow + 1 = NUM_ROWS := h6
    simp [endGame, revealEvaluation, h7]
  · rename_i h6
    have h7 : ¬(s.currentRow + 1 = NUM_ROWS) := h6
    simp [revealEvaluation, h7]

theorem playGuess_round (s : GameState) (w : List Char)
    (hover : s.isGameOver = false)
    (hc0 : s.currentCol = 0) (hlet : s.currentLetters = [])
    (hrow : s.currentRow < NUM_ROWS)
    (hwlen : w.length = NUM_COLS) (hwne : w ≠ s.secretWord) :
    (playGuess s w).currentRow = s.currentRow + 1 ∧
    (playGuess s w).currentCol = 0 ∧
    (playGuess s w).currentLetters = [] ∧
    (playGuess s w).secretWord = s.secretWord ∧
    (playGuess s w).isGameOver =
      (if s.currentRow + 1 = NUM_ROWS then true else false) ∧
    (playGuess s w).gamesPlayed =
      (if s.currentRow + 1 = NUM_ROWS then s.gamesPlayed + 1 else s.gamesPlayed) ∧
    (playGuess s w).gamesWon = s.gamesWon ∧
    (playGuess s w).currentStreak =
      (if s.currentRow + 1 = NUM_ROWS then 0 else s.currentStreak) := by
  have hfold := foldl_addLetter_eq w s (by rw [hc0]; omega) hrow
  unfold playGuess
  have ht1 : (List.foldl (fun s c => addLetter c s) s w).currentCol =
      NUM_COLS := by
    rw [hfold]
    show s.currentCol + w.length = NUM_COLS
    rw [hc0, hwlen]
    omega
  have ht2 : (List.foldl (fun s c => addLetter c s) s w).currentLetters = w := by
    rw [hfold]
    show s.currentLetters ++ w = w
    rw [hlet]
    simp
  have ht3 : (List.foldl (fun s c => addLetter c s) s w).secretWord =
      s.secretWord := by
    rw [hfold]
  have ht4 : (List.foldl (fun s c => addLetter c s) s w).currentRow =
      s.currentRow := by
    rw [hfold]
  have ht5 : (List.foldl (fun s c => addLetter c s) s w).isGameOver = false := by
    rw [hfold]
    exact hover
  have ht6 : (List.foldl (fun s c => addLetter c s) s w).gamesPlayed =
      s.gamesPlayed := by
    rw [hfold]
  have ht7 : (List.foldl (fun s c => addLetter c s) s w).gamesWon =
      s.gamesWon := by
    rw [hfold]
  have ht8 : (List.foldl (fun s c => addLetter c s) s w).currentStreak =
      s.currentStreak := by
    rw [hfold]
  have hsub := submitGuess_nonwin_fields (List.foldl (fun s c => addLetter c s) s w)
    ht1 (by rw [ht2]; exact hwlen) (by rw [ht2, ht3]; exact hwne)
  obtain ⟨r1, r2, r3, r4, r5, r6, r7, r8⟩ := hsub
  rw [ht4] at r1 r5 r6 r8
  rw [ht5] at r5
  rw [ht3] at r4
  rw [ht6] at r6
  rw [ht7] at r7
  rw [ht8] at r8
  exact ⟨r1, r2, r3, r4, r5, r6, r7, r8⟩

theorem playGuesses_loss_aux (ws : List (List Char)) (s : GameState)
    (hover : s.isGameOver = false) (hc0 : s.currentCol = 0)
    (hlet : s.currentLetters = [])
    (hrow : s.currentRow + ws.length = NUM_ROWS)
    (hws : ∀ w ∈ ws, w.length = NUM_COLS ∧ w ≠ s.secretWord)
    (hne : ws ≠ []) :
    (playGuesses s ws).isGameOver = true ∧
    (playGuesses s ws).gamesPlayed = s.gamesPlayed + 1 ∧
    (playGuesses s ws).currentStreak = 0 ∧
    (playGuesses s ws).gamesWon = s.gamesWon := by
  induction ws generalizing s with
  | nil => exact absurd rfl hne
  | cons w ws ih =>
    have hw := hws w (List.mem_cons_self w ws)
    have hr1 : s.currentRow < NUM_ROWS := by
      simp only [List.length_cons] at hrow
      omega
    have round := playGuess_round s w hover hc0 hlet hr1 hw.1 hw.2
    obtain ⟨r1, r2, r3, r4, r5, r6, r7, r8⟩ := round
    simp only [playGuesses, List.foldl_cons] at ih ⊢
    cases ws with
    | nil =>
      simp only [List.foldl_nil]
      have h6 : s.currentRow + 1 = NUM_ROWS := by
        simp only [List.length_cons, List.length_nil] at hrow
        omega
      rw [if_pos h6] at r5 r6 r8
      exact ⟨r5, r6, r8, r7⟩
    | cons w2 ws2 =>
      have h6 : ¬(s.currentRow + 1 = NUM_ROWS) := by
        simp only [List.length_cons] at hrow
        omega
      rw [if_neg h6] at r5 r6 r8
      have hrow2 : (playGuess s w).currentRow + (w2 :: ws2).length = NUM_ROWS := by
        rw [r1]
        simp only [List.length_cons] at hrow ⊢
        omega
      have hws2 : ∀ u ∈ w2 :: ws2,
          u.length = NUM_COLS ∧ u ≠ (playGuess s w).secretWord := by
        intro u hu
        have := hws u (List.mem_cons_of_mem w hu)
        rw [r4]
        exact this
      have hrest := ih (playGuess s w) r5 r2 r3 hrow2 hws2 (by simp)
      refine ⟨hrest.1, ?_, hrest.2.2.1, ?_⟩
      · rw [hrest.2.1, r6]
      · rw [hrest.2.2.2, r7]

/-- Claim C9: starting a fresh game and submitting 6 complete valid
guesses, none equal to the secret, ends the session game-over with a
loss: gamesPlayed is incremented by one, the streak is reset to 0, and
gamesWon is untouched. -/
theorem game_loss_after_six (s0 : GameState) (secret : List Char)
    (ws : List (List Char)) (hlen : ws.length = NUM_ROWS)
    (hws : ∀ w ∈ ws, w.length = NUM_COLS ∧ w ≠ secret) :
    (playGuesses (initGame secret s0) ws).isGameOver = true ∧
    (playGuesses (initGame secret s0) ws).gamesPlayed = s0.gamesPlayed + 1 ∧
    (playGuesses (initGame secret s0) ws).currentStreak = 0 ∧
    (playGuesses (initGame secret s0) ws).gamesWon = s0.gamesWon := by
  have hne : ws ≠ [] := by
    intro h
    rw [h] at hlen
    simp [NUM_ROWS] at hlen
  have hrow : (initGame secret s0).currentRow + ws.length = NUM_ROWS := by
    show 0 + ws.length = NUM_ROWS
    omega
  have hws2 : ∀ w ∈ ws, w.length = NUM_COLS ∧ w ≠ (initGame secret s0).secretWord := by
    intro w hw
    exact hws w hw
  exact playGuesses_loss_aux ws (initGame secret s0) rfl rfl rfl hrow hws2 hne

/-- Witness for claim C9: guessing "APPLE" six times against secret
"CRANE" loses the game. -/
theorem game_loss_after_six_witness :
    (playGuesses (initGame ['C', 'R', 'A', 'N', 'E'] blankSession)
        [['A', 'P', 'P', 'L', 'E'], ['A', 'P', 'P', 'L', 'E'],
          ['A', 'P', 'P', 'L', 'E'], ['A', 'P', 'P', 'L', 'E'],
          ['A', 'P', 'P', 'L', 'E'], ['A', 'P', 'P', 'L', 'E']]).isGameOver =
      true ∧
    (playGuesses (initGame ['C', 'R', 'A', 'N', 'E'] blankSession)
        [['A', 'P', 'P', 'L', 'E'], ['A', 'P', 'P', 'L', 'E'],
          ['A', 'P', 'P', 'L', 'E'], ['A', 'P', 'P', 'L', 'E'],
          ['A', 'P', 'P', 'L', 'E'], ['A', 'P', 'P', 'L', 'E']]).gamesPlayed =
      blankSession.gamesPlayed + 1 ∧
    (playGuesses (initGame ['C', 'R', 'A', 'N', 'E'] blankSession)
        [['A', 'P', 'P', 'L', 'E'], ['A', 'P', 'P', 'L', 'E'],
          ['A', 'P', 'P', 'L', 'E'], ['A', 'P', 'P', 'L', 'E'],
          ['A', 'P', 'P', 'L', 'E'], ['A', 'P', 'P', 'L', 'E']]).currentStreak =
      0 ∧
    (playGuesses (initGame ['C', 'R', 'A', 'N', 'E'] blankSession)
        [['A', 'P', 'P', 'L', 'E'], ['A', 'P', 'P', 'L', 'E'],
          ['A', 'P', 'P', 'L', 'E'], ['A', 'P', 'P', 'L', 'E'],
          ['A', 'P', 'P', 'L', 'E'], ['A', 'P', 'P', 'L', 'E']]).gamesWon =
      blankSession.gamesWon :=
  game_loss_after_six blankSession ['C', 'R', 'A', 'N', 'E']
    [['A', 'P', 'P', 'L', 'E'], ['A', 'P', 'P', 'L', 'E'],
      ['A', 'P', 'P', 'L', 'E'], ['A', 'P', 'P', 'L', 'E'],
      ['A', 'P', 'P', 'L', 'E'], ['A', 'P', 'P', 'L', 'E']]
    (by decide) (by decide)

theorem addLetter_inv (c : Char) (s : GameState) (h : RowColInv s) :
    RowColInv (addLetter c s) := by
  obtain ⟨h1, h2, h3⟩ := h
  unfold addLetter
  split
  · exact ⟨h1, h2, h3⟩
  · rename_i hguard
    push_neg at hguard
    refine ⟨?_, h2, ?_⟩
    · show s.currentCol + 1 ≤ NUM_COLS
      have := hguard.1
      omega
    · intro hrow
      exfalso
      have h6 : s.currentRow = NUM_ROWS := hrow
      have := hguard.2
      omega

theorem deleteLetter_inv (s : GameState) (h : RowColInv s) :
    RowColInv (deleteLetter s) := by
  obtain ⟨h1, h2, h3⟩ := h
  unfold deleteLetter
  split
  · exact ⟨h1, h2, h3⟩
  · rename_i hguard
    push_neg at hguard
    refine ⟨?_, h2, ?_⟩
    · show s.currentCol - 1 ≤ NUM_COLS
      omega
    · intro hrow
      exfalso
      have h6 : s.currentRow = NUM_ROWS := hrow
      have := hguard.2
      omega

theorem submitGuess_inv (s : GameState) (h : RowColInv s) :
    RowColInv (submitGuess s) := by
  obtain ⟨h1, h2, h3⟩ := h
  by_cases hc : s.currentCol < NUM_COLS
  · have heq : submitGuess s = s := by
      simp [submitGuess, submitGuessResult, hc]
    rw [heq]
    exact ⟨h1, h2, h3⟩
  · have hrow6 : s.currentRow ≠ NUM_ROWS := by
      intro hr
      have hcol0 := h3 hr
      rw [hcol0] at hc
      simp [NUM_COLS] at hc
    simp only [submitGuess, submitGuessResult]
    rw [if_neg hc]
    by_cases hv : (!isValidGuess (getCurrentGuess s)) = true
    · rw [if_pos hv]
      exact ⟨h1, h2, h3⟩
    · rw [if_neg hv]
      by_cases hwin : getCurrentGuess s = (revealEvaluation s (getCurrentGuess s)
          (evaluateGuess (getCurrentGuess s) s.secretWord)).secretWord
      · rw [if_pos hwin]
        exact ⟨h1, h2, h3⟩
      · rw [if_neg hwin]
        split
        · refine ⟨?_, ?_, ?_⟩
          · show (0 : Nat) ≤ NUM_COLS
            simp [NUM_COLS]
          · show s.currentRow + 1 ≤ NUM_ROWS
            omega
          · intro hrow
            rfl
        · refine ⟨?_, ?_, ?_⟩
          · show (0 : Nat) ≤ NUM_COLS
            simp [NUM_COLS]
          · show s.currentRow + 1 ≤ NUM_ROWS
            omega
          · intro hrow
            rfl

theorem handleKey_inv (k : Key) (s : GameState) (h : RowColInv s) :
    RowColInv (handleKey k s) := by
  unfold handleKey
  split
  · exact h
  · cases k with
    | enter => exact submitGuess_inv s h
    | backspace => exact deleteLetter_inv s h
    | letter c =>
      show RowColInv (if isUppercaseLetter c then addLetter c s else s)
      split
      · exact addLetter_inv c s h
      · exact h

theorem applyKeys_inv (keys : List Key) (s : GameState) (h : RowColInv s) :
    RowColInv (applyKeys s keys) := by
  induction keys generalizing s with
  | nil => simpa [applyKeys] using h
  | cons k ks ih =>
    simp only [applyKeys, List.foldl_cons] at ih ⊢
    exact ih (handleKey k s) (handleKey_inv k s h)

/-- Claim C7: in every state reachable from a fresh game by key input
(letter entry, deletion, submission), the column stays at most the
word length and the row at most the row count. -/
theorem rowcol_bounded (s0 : GameState) (secret : List Char)
    (keys : List Key) :
    (applyKeys (initGame secret s0) keys).currentCol ≤ NUM_COLS ∧
    (applyKeys (initGame secret s0) keys).currentRow ≤ NUM_ROWS := by
  have hinit : RowColInv (initGame secret s0) := by
    refine ⟨?_, ?_, ?_⟩ <;> simp [initGame, NUM_COLS, NUM_ROWS]
  have hfin := applyKeys_inv keys (initGame secret s0) hinit
  exact ⟨hfin.1, hfin.2.1⟩

/-- Witness for claim C10: submitting "CRANE" against secret "CRANE"
wins without moving the cursor. -/
theorem submitGuess_win_frame_witness :
    (submitGuess filledRow).isGameOver = true ∧
    (submitGuess filledRow).currentRow = filledRow.currentRow ∧
    (submitGuess filledRow).currentCol = NUM_COLS ∧
    (submitGuess filledRow).gamesWon = filledRow.gamesWon + 1 ∧
    (submitGuess filledRow).currentStreak = filledRow.currentStreak + 1 ∧
    (submitGuess filledRow).gamesPlayed = filledRow.gamesPlayed + 1 :=
  (submitGuess_win_frame filledRow (by decide) (by decide)).1 (by decide)

end Wordle
